import Mathlib

/-!
Shallow embedding of the miner main loop of
`src/llm_defender/neurons/miner.py` (the `main` function, lines 52-162),
together with proofs of the testable properties stated for it.

External effects (block-height reads on the subtensor, `set_weights`
submissions, the remote-blacklist query, metagraph sync/fetch) are modelled
by an oracle record `TickEnv` giving, for each external call a tick may
perform, either the value the call returns or the fact that it raises an
exception.  Side effects visible to an observer (which calls were made, the
sleep, the shutdown actions) are recorded as an event trace.
-/

namespace MinerLoop

/-- The cached network view (`miner.metagraph`): uids of the participants,
the block at which the view was captured, and the per-participant statistic
vectors logged by the status line (stake, rank, trust, consensus, incentive,
emission). -/
structure Metagraph where
  uids : List Nat
  block : Nat
  S : List ℚ
  R : List ℚ
  T : List ℚ
  C : List ℚ
  I : List ℚ
  E : List ℚ
deriving DecidableEq

/-- Result of one external call: the returned value, or an exception. -/
inductive ExtResult (α : Type) where
  | ok : α → ExtResult α
  | exn : ExtResult α
deriving DecidableEq

/-- The mutable miner state the loop advances (the fields of the
`LLMDefenderMiner` object that `main` reads or writes). -/
structure MinerState where
  step : Nat
  last_updated_block : Nat
  miner_set_weights : Bool
  miner_uid : Nat
  metagraph : Metagraph
  hotkey_blacklisted : Bool
  wandb_enabled : Bool
  wandb_handler : Option Unit
deriving DecidableEq

/-- Oracle for one loop iteration: the outcome of every external call the
tick may perform, in program order, plus whether a cancellation signal
(KeyboardInterrupt) arrives this iteration. -/
structure TickEnv where
  cancel : Bool
  blockRead1 : ExtResult Nat
  setWeightsResult : ExtResult Bool
  blockRead2 : ExtResult Nat
  blacklistResult : ExtResult Bool
  syncResult : ExtResult Metagraph
  fetchResult : ExtResult Metagraph
deriving DecidableEq

/-- Observable events of one iteration. -/
inductive Event where
  | blockRead
  | setWeightsCall (w : List ℚ)
  | blacklistCheck
  | metagraphSyncCall
  | metagraphFetchCall
  | statusLog
  | wandbLog
  | sleep
  | axonStop
  | wandbFinish
deriving DecidableEq

/-- How one iteration of the `while True` loop ends: `normal` (fell through
to `step += 1; sleep`), `caught` (an exception reached the bare
`except Exception` handler, which does `continue`), `stopped` (the
KeyboardInterrupt handler ran to completion and hit `break`), or `crashed`
(an exception escaped the loop entirely). -/
inductive Outcome where
  | normal
  | caught
  | stopped
  | crashed
deriving DecidableEq

/-- The result of one loop iteration: the state after it, the events it
emitted, and how it ended. -/
structure TickResult where
  state : MinerState
  events : List Event
  outcome : Outcome
deriving DecidableEq

/-- Lines 64-65: `weights = torch.Tensor([0.0] * len(miner.metagraph.uids))`
then `weights[miner.miner_uid] = 1.0`. -/
def buildWeights (n : Nat) (uid : Nat) : List ℚ :=
  (List.replicate n (0 : ℚ)).set uid 1

/-- Lines 154-158, the `except KeyboardInterrupt` handler: `axon.stop()`,
then `miner.wandb_handler.wandb_run.finish()`, then `break`.  The `finish`
call dereferences `wandb_handler` unconditionally; when the handler does not
exist the attribute access raises inside the handler, where nothing catches
it, so the exception escapes the loop. -/
def shutdownSeq (m : MinerState) : TickResult :=
  match m.wandb_handler with
  | some _ => ⟨m, [Event.axonStop, Event.wandbFinish], Outcome.stopped⟩
  | none => ⟨m, [Event.axonStop], Outcome.crashed⟩

/-- Line 101: `miner.metagraph = miner.subtensor.metagraph(netuid)`, with
`g` the snapshot the subtensor returns for the current ledger state. -/
def lightweightRefresh (m : MinerState) (g : Metagraph) : MinerState :=
  { m with metagraph := g }

/-- Intermediate result inside the `try` body: state so far and events so
far.  `Except.error` means an exception was raised at this point. -/
abbrev StageRes : Type := MinerState × List Event

/-- Lines 59-88: read the block height, and if the staleness window is open
and weight submission is enabled, build the weight vector, submit it, log
the reported result, and set `last_updated_block` from a fresh block
read (line 88 runs whether or not the submission was reported successful). -/
def weightStage (m : MinerState) (e : TickEnv) : Except StageRes StageRes :=
  match e.blockRead1 with
  | ExtResult.exn => Except.error (m, [Event.blockRead])
  | ExtResult.ok current_block =>
    if (current_block : ℤ) - (m.last_updated_block : ℤ) > 100 ∧
        m.miner_set_weights = true then
      let weights := buildWeights m.metagraph.uids.length m.miner_uid
      match e.setWeightsResult with
      | ExtResult.exn =>
        Except.error (m, [Event.blockRead, Event.setWeightsCall weights])
      | ExtResult.ok _result =>
        match e.blockRead2 with
        | ExtResult.exn =>
          Except.error (m, [Event.blockRead, Event.setWeightsCall weights,
            Event.blockRead])
        | ExtResult.ok b2 =>
          Except.ok ({ m with last_updated_block := b2 },
            [Event.blockRead, Event.setWeightsCall weights, Event.blockRead])
    else
      Except.ok (m, [Event.blockRead])

/-- Lines 90-92: every 300 steps, `miner.check_remote_blacklist()`, which
re-queries the remote policy and updates `hotkey_blacklisted`. -/
def blacklistStage (m : MinerState) (e : TickEnv) : Except StageRes StageRes :=
  if m.step % 300 == 0 then
    match e.blacklistResult with
    | ExtResult.exn => Except.error (m, [Event.blacklistCheck])
    | ExtResult.ok b =>
      Except.ok ({ m with hotkey_blacklisted := b }, [Event.blacklistCheck])
  else
    Except.ok (m, [])

/-- Lines 94-99: every 600 steps, `miner.metagraph.sync(subtensor)`, a
forced full resync that updates the cached metagraph in place. -/
def syncStage (m : MinerState) (e : TickEnv) : Except StageRes StageRes :=
  if m.step % 600 == 0 then
    match e.syncResult with
    | ExtResult.exn => Except.error (m, [Event.metagraphSyncCall])
    | ExtResult.ok g =>
      Except.ok ({ m with metagraph := g }, [Event.metagraphSyncCall])
  else
    Except.ok (m, [])

/-- Line 101: the every-umbrella-tick lightweight snapshot refresh. -/
def fetchStage (m : MinerState) (e : TickEnv) : Except StageRes StageRes :=
  match e.fetchResult with
  | ExtResult.exn => Except.error (m, [Event.metagraphFetchCall])
  | ExtResult.ok g => Except.ok (lightweightRefresh m g, [Event.metagraphFetchCall])

/-- Lines 102-148: always log the status line; if `wandb_enabled`,
additionally emit the wandb metrics. -/
def telemetryStage (m : MinerState) : List Event :=
  if m.wandb_enabled then [Event.statusLog, Event.wandbLog]
  else [Event.statusLog]

/-- Lines 57-148: the umbrella `if miner.step % 20 == 0` block, running the
stages in program order.  An exception at any stage aborts the rest of the
block, keeping the mutations already made. -/
def cadenceBlock (m : MinerState) (e : TickEnv) : Except StageRes StageRes :=
  if m.step % 20 == 0 then
    match weightStage m e with
    | Except.error p => Except.error p
    | Except.ok (m1, evs1) =>
      match blacklistStage m1 e with
      | Except.error (m2, evs2) => Except.error (m2, evs1 ++ evs2)
      | Except.ok (m2, evs2) =>
        match syncStage m2 e with
        | Except.error (m3, evs3) => Except.error (m3, evs1 ++ evs2 ++ evs3)
        | Except.ok (m3, evs3) =>
          match fetchStage m3 e with
          | Except.error (m4, evs4) =>
            Except.error (m4, evs1 ++ evs2 ++ evs3 ++ evs4)
          | Except.ok (m4, evs4) =>
            Except.ok (m4, evs1 ++ evs2 ++ evs3 ++ evs4 ++ telemetryStage m4)
  else
    Except.ok (m, [])

/-- One iteration of the `while True` loop (lines 54-162).  A cancellation
signal runs the KeyboardInterrupt handler.  Otherwise the `try` body runs:
if it raises, the `except Exception` handler logs and does `continue`
(skipping both `miner.step += 1` and `time.sleep(1)`); if it completes,
`step` is incremented and the 1-second sleep happens. -/
def tick (m : MinerState) (e : TickEnv) : TickResult :=
  if e.cancel then shutdownSeq m
  else
    match cadenceBlock m e with
    | Except.error (m1, evs) => ⟨m1, evs, Outcome.caught⟩
    | Except.ok (m1, evs) =>
      ⟨{ m1 with step := m1.step + 1 }, evs ++ [Event.sleep], Outcome.normal⟩

/-- Run the loop over a finite prefix of the oracle stream.  `break` (or a
crash) ends the run; `continue` and normal completion proceed to the next
iteration. -/
def run (m : MinerState) : List TickEnv → MinerState × List Event × Outcome
  | [] => (m, [], Outcome.normal)
  | e :: es =>
    let r := tick m e
    match r.outcome with
    | Outcome.stopped => (r.state, r.events, Outcome.stopped)
    | Outcome.crashed => (r.state, r.events, Outcome.crashed)
    | _ =>
      let rest := run r.state es
      (rest.1, r.events ++ rest.2.1, rest.2.2)

/-- The condition under which line 92 (`check_remote_blacklist`) is
reached, as the source nests it: inside the 20-step umbrella branch. -/
def blacklistDueNested (step : Nat) : Bool :=
  step % 20 == 0 && step % 300 == 0

/-- The condition under which line 99 (`metagraph.sync`) is reached, as the
source nests it: inside the 20-step umbrella branch. -/
def resyncDueNested (step : Nat) : Bool :=
  step % 20 == 0 && step % 600 == 0

/-- The 300-step cadence evaluated independently of the umbrella branch. -/
def blacklistDueIndependent (step : Nat) : Bool :=
  step % 300 == 0

/-- The 600-step cadence evaluated independently of the umbrella branch. -/
def resyncDueIndependent (step : Nat) : Bool :=
  step % 600 == 0

/-- An empty snapshot, used for concrete evaluations. -/
def gEmpty : Metagraph :=
  ⟨[], 0, [], [], [], [], [], []⟩

/-- A two-participant snapshot, used for concrete evaluations. -/
def gTwo : Metagraph :=
  ⟨[0, 1], 5, [0, 0], [0, 0], [0, 0], [0, 0], [0, 0], [0, 0]⟩

/-- The state a stage result carries, whether it raised or not. -/
def stateOf : Except StageRes StageRes → MinerState
  | Except.error p => p.1
  | Except.ok p => p.1

/-- The events a stage result carries, whether it raised or not. -/
def eventsOf : Except StageRes StageRes → List Event
  | Except.error p => p.2
  | Except.ok p => p.2

theorem weightStage_step_eq (m : MinerState) (e : TickEnv) :
    (stateOf (weightStage m e)).step = m.step := by
  unfold weightStage
  cases e.blockRead1 with
  | exn => rfl
  | ok b =>
    dsimp only
    split
    · cases e.setWeightsResult with
      | exn => rfl
      | ok r =>
        cases e.blockRead2 with
        | exn => rfl
        | ok b2 => rfl
    · rfl

theorem blacklistStage_step_eq (m : MinerState) (e : TickEnv) :
    (stateOf (blacklistStage m e)).step = m.step := by
  unfold blacklistStage
  split
  · cases e.blacklistResult with
    | exn => rfl
    | ok b => rfl
  · rfl

theorem syncStage_step_eq (m : MinerState) (e : TickEnv) :
    (stateOf (syncStage m e)).step = m.step := by
  unfold syncStage
  split
  · cases e.syncResult with
    | exn => rfl
    | ok g => rfl
  · rfl

theorem fetchStage_step_eq (m : MinerState) (e : TickEnv) :
    (stateOf (fetchStage m e)).step = m.step := by
  unfold fetchStage
  cases e.fetchResult with
  | exn => rfl
  | ok g => rfl

theorem blacklistStage_block_eq (m : MinerState) (e : TickEnv) :
    (stateOf (blacklistStage m e)).last_updated_block = m.last_updated_block := by
  unfold blacklistStage
  split
  · cases e.blacklistResult with
    | exn => rfl
    | ok b => rfl
  · rfl

theorem syncStage_block_eq (m : MinerState) (e : TickEnv) :
    (stateOf (syncStage m e)).last_updated_block = m.last_updated_block := by
  unfold syncStage
  split
  · cases e.syncResult with
    | exn => rfl
    | ok g => rfl
  · rfl

theorem fetchStage_block_eq (m : MinerState) (e : TickEnv) :
    (stateOf (fetchStage m e)).last_updated_block = m.last_updated_block := by
  unfold fetchStage
  cases e.fetchResult with
  | exn => rfl
  | ok g => rfl

theorem sleep_not_mem_weightStage (m : MinerState) (e : TickEnv) :
    Event.sleep ∉ eventsOf (weightStage m e) := by
  unfold weightStage
  cases e.blockRead1 with
  | exn => simp [eventsOf]
  | ok b =>
    dsimp only
    split
    · cases e.setWeightsResult with
      | exn => simp [eventsOf]
      | ok r =>
        cases e.blockRead2 with
        | exn => simp [eventsOf]
        | ok b2 => simp [eventsOf]
    · simp [eventsOf]

theorem sleep_not_mem_blacklistStage (m : MinerState) (e : TickEnv) :
    Event.sleep ∉ eventsOf (blacklistStage m e) := by
  unfold blacklistStage
  split
  · cases e.blacklistResult with
    | exn => simp [eventsOf]
    | ok b => simp [eventsOf]
  · simp [eventsOf]

theorem sleep_not_mem_syncStage (m : MinerState) (e : TickEnv) :
    Event.sleep ∉ eventsOf (syncStage m e) := by
  unfold syncStage
  split
  · cases e.syncResult with
    | exn => simp [eventsOf]
    | ok g => simp [eventsOf]
  · simp [eventsOf]

theorem sleep_not_mem_fetchStage (m : MinerState) (e : TickEnv) :
    Event.sleep ∉ eventsOf (fetchStage m e) := by
  unfold fetchStage
  cases e.fetchResult with
  | exn => simp [eventsOf]
  | ok g => simp [eventsOf]

theorem sleep_not_mem_telemetryStage (m : MinerState) :
    Event.sleep ∉ telemetryStage m := by
  unfold telemetryStage
  split <;> simp

/-- A `setWeightsCall` event in the weight stage pins down the gate: the
staleness window was open on the first block read, weight submission was
enabled, and the vector is the one built from the cached snapshot. -/
theorem setWeightsCall_mem_weightStage (m : MinerState) (e : TickEnv) (w : List ℚ)
    (hmem : Event.setWeightsCall w ∈ eventsOf (weightStage m e)) :
    m.miner_set_weights = true ∧
    w = buildWeights m.metagraph.uids.length m.miner_uid ∧
    ∃ b, e.blockRead1 = ExtResult.ok b ∧
      (b : ℤ) - (m.last_updated_block : ℤ) > 100 := by
  unfold weightStage at hmem
  cases hb : e.blockRead1 with
  | exn => rw [hb] at hmem; simp [eventsOf] at hmem
  | ok b =>
    rw [hb] at hmem
    dsimp only at hmem
    split at hmem
    · rename_i hcond
      cases hsw : e.setWeightsResult with
      | exn =>
        rw [hsw] at hmem
        simp [eventsOf] at hmem
        exact ⟨hcond.2, hmem, b, rfl, hcond.1⟩
      | ok r =>
        rw [hsw] at hmem
        cases hb2 : e.blockRead2 with
        | exn =>
          rw [hb2] at hmem
          simp [eventsOf] at hmem
          exact ⟨hcond.2, hmem, b, rfl, hcond.1⟩
        | ok b2 =>
          rw [hb2] at hmem
          simp [eventsOf] at hmem
          exact ⟨hcond.2, hmem, b, rfl, hcond.1⟩
    · simp [eventsOf] at hmem

theorem setWeightsCall_not_mem_blacklistStage (m : MinerState) (e : TickEnv)
    (w : List ℚ) : Event.setWeightsCall w ∉ eventsOf (blacklistStage m e) := by
  unfold blacklistStage
  split
  · cases e.blacklistResult with
    | exn => simp [eventsOf]
    | ok b => simp [eventsOf]
  · simp [eventsOf]

theorem setWeightsCall_not_mem_syncStage (m : MinerState) (e : TickEnv)
    (w : List ℚ) : Event.setWeightsCall w ∉ eventsOf (syncStage m e) := by
  unfold syncStage
  split
  · cases e.syncResult with
    | exn => simp [eventsOf]
    | ok g => simp [eventsOf]
  · simp [eventsOf]

theorem setWeightsCall_not_mem_fetchStage (m : MinerState) (e : TickEnv)
    (w : List ℚ) : Event.setWeightsCall w ∉ eventsOf (fetchStage m e) := by
  unfold fetchStage
  cases e.fetchResult with
  | exn => simp [eventsOf]
  | ok g => simp [eventsOf]

theorem setWeightsCall_not_mem_telemetryStage (m : MinerState) (w : List ℚ) :
    Event.setWeightsCall w ∉ telemetryStage m := by
  unfold telemetryStage
  split <;> simp

/-- Combined characterization of the umbrella block: it never changes
`step`, never emits a sleep, only emits a `setWeightsCall` when the
20-step cadence is due and the weight stage emitted it, and (when the
cadence is due) leaves `last_updated_block` exactly as the weight stage
left it. -/
theorem cadenceBlock_spec (m : MinerState) (e : TickEnv) :
    (stateOf (cadenceBlock m e)).step = m.step ∧
    Event.sleep ∉ eventsOf (cadenceBlock m e) ∧
    (∀ w : List ℚ, Event.setWeightsCall w ∈ eventsOf (cadenceBlock m e) →
      m.step % 20 = 0 ∧ Event.setWeightsCall w ∈ eventsOf (weightStage m e)) ∧
    (m.step % 20 = 0 →
      (stateOf (cadenceBlock m e)).last_updated_block =
        (stateOf (weightStage m e)).last_updated_block) := by
  unfold cadenceBlock
  split
  case isTrue h20 =>
    have h20p : m.step % 20 = 0 := by simpa using h20
    cases hw : weightStage m e with
    | error p =>
      obtain ⟨m1, evs1⟩ := p
      dsimp only
      have h1 := weightStage_step_eq m e
      have s1 := sleep_not_mem_weightStage m e
      simp only [hw, stateOf, eventsOf] at h1 s1
      exact ⟨h1, s1, fun w hmw => ⟨h20p, by simp only [hw, eventsOf]; exact hmw⟩,
        fun _ => by simp only [hw, stateOf]⟩
    | ok p =>
      obtain ⟨m1, evs1⟩ := p
      dsimp only
      have h1 := weightStage_step_eq m e
      have s1 := sleep_not_mem_weightStage m e
      simp only [hw, stateOf, eventsOf] at h1 s1
      have hb1 : (stateOf (weightStage m e)).last_updated_block =
          m1.last_updated_block := by
        simp only [hw, stateOf]
      cases hb : blacklistStage m1 e with
      | error q =>
        obtain ⟨m2, evs2⟩ := q
        dsimp only
        have h2 := blacklistStage_step_eq m1 e
        have s2 := sleep_not_mem_blacklistStage m1 e
        have w2 := fun w : List ℚ => setWeightsCall_not_mem_blacklistStage m1 e w
        have b2 := blacklistStage_block_eq m1 e
        simp only [hb, stateOf, eventsOf] at h2 s2 w2 b2
        refine ⟨by simp [stateOf, h2, h1], ?_, ?_, ?_⟩
        · simp only [eventsOf, List.mem_append]
          rintro (hx | hx)
          · exact s1 hx
          · exact s2 hx
        · intro w hmw
          simp only [eventsOf, List.mem_append] at hmw
          rcases hmw with hx | hx
          · exact ⟨h20p, hx⟩
          · exact absurd hx (w2 w)
        · intro _
          simp [stateOf, b2, hb1]
      | ok q =>
        obtain ⟨m2, evs2⟩ := q
        dsimp only
        have h2 := blacklistStage_step_eq m1 e
        have s2 := sleep_not_mem_blacklistStage m1 e
        have w2 := fun w : List ℚ => setWeightsCall_not_mem_blacklistStage m1 e w
        have b2 := blacklistStage_block_eq m1 e
        simp only [hb, stateOf, eventsOf] at h2 s2 w2 b2
        cases hs : syncStage m2 e with
        | error q3 =>
          obtain ⟨m3, evs3⟩ := q3
          dsimp only
          have h3 := syncStage_step_eq m2 e
          have s3 := sleep_not_mem_syncStage m2 e
          have w3 := fun w : List ℚ => setWeightsCall_not_mem_syncStage m2 e w
          have b3 := syncStage_block_eq m2 e
          simp only [hs, stateOf, eventsOf] at h3 s3 w3 b3
          refine ⟨by simp [stateOf, h3, h2, h1], ?_, ?_, ?_⟩
          · simp only [eventsOf, List.mem_append]
            rintro ((hx | hx) | hx)
            · exact s1 hx
            · exact s2 hx
            · exact s3 hx
          · intro w hmw
            simp only [eventsOf, List.mem_append] at hmw
            rcases hmw with (hx | hx) | hx
            · exact ⟨h20p, hx⟩
            · exact absurd hx (w2 w)
            · exact absurd hx (w3 w)
          · intro _
            simp [stateOf, b3, b2, hb1]
        | ok q3 =>
          obtain ⟨m3, evs3⟩ := q3
          dsimp only
          have h3 := syncStage_step_eq m2 e
          have s3 := sleep_not_mem_syncStage m2 e
          have w3 := fun w : List ℚ => setWeightsCall_not_mem_syncStage m2 e w
          have b3 := syncStage_block_eq m2 e
          simp only [hs, stateOf, eventsOf] at h3 s3 w3 b3
          cases hf : fetchStage m3 e with
          | error q4 =>
            obtain ⟨m4, evs4⟩ := q4
            dsimp only
            have h4 := fetchStage_step_eq m3 e
            have s4 := sleep_not_mem_fetchStage m3 e
            have w4 := fun w : List ℚ => setWeightsCall_not_mem_fetchStage m3 e w
            have b4 := fetchStage_block_eq m3 e
            simp only [hf, stateOf, eventsOf] at h4 s4 w4 b4
            refine ⟨by simp [stateOf, h4, h3, h2, h1], ?_, ?_, ?_⟩
            · simp only [eventsOf, List.mem_append]
              rintro (((hx | hx) | hx) | hx)
              · exact s1 hx
              · exact s2 hx
              · exact s3 hx
              · exact s4 hx
            · intro w hmw
              simp only [eventsOf, List.mem_append] at hmw
              rcases hmw with ((hx | hx) | hx) | hx
              · exact ⟨h20p, hx⟩
              · exact absurd hx (w2 w)
              · exact absurd hx (w3 w)
              · exact absurd hx (w4 w)
            · intro _
              simp [stateOf, b4, b3, b2, hb1]
          | ok q4 =>
            obtain ⟨m4, evs4⟩ := q4
            dsimp only
            have h4 := fetchStage_step_eq m3 e
            have s4 := sleep_not_mem_fetchStage m3 e
            have w4 := fun w : List ℚ => setWeightsCall_not_mem_fetchStage m3 e w
            have b4 := fetchStage_block_eq m3 e
            simp only [hf, stateOf, eventsOf] at h4 s4 w4 b4
            have s5 := sleep_not_mem_telemetryStage m4
            have w5 := fun w : List ℚ => setWeightsCall_not_mem_telemetryStage m4 w
            refine ⟨by simp [stateOf, h4, h3, h2, h1], ?_, ?_, ?_⟩
            · simp only [eventsOf, List.mem_append]
              rintro ((((hx | hx) | hx) | hx) | hx)
              · exact s1 hx
              · exact s2 hx
              · exact s3 hx
              · exact s4 hx
              · exact s5 hx
            · intro w hmw
              simp only [eventsOf, List.mem_append] at hmw
              rcases hmw with (((hx | hx) | hx) | hx) | hx
              · exact ⟨h20p, hx⟩
              · exact absurd hx (w2 w)
              · exact absurd hx (w3 w)
              · exact absurd hx (w4 w)
              · exact absurd hx (w5 w)
            · intro _
              simp [stateOf, b4, b3, b2, hb1]
  case isFalse h20 =>
    refine ⟨rfl, by simp [eventsOf], by simp [eventsOf], ?_⟩
    intro hp
    exact absurd hp (by simpa using h20)

/-- When the gate is open and both block reads and the submission return,
the weight stage completes with `last_updated_block` set to the result of
the second block read, whatever the submission reported. -/
theorem weightStage_submit (m : MinerState) (e : TickEnv) (b1 : Nat) (r : Bool)
    (b2 : Nat) (hb1 : e.blockRead1 = ExtResult.ok b1)
    (hd : (b1 : ℤ) - (m.last_updated_block : ℤ) > 100)
    (hen : m.miner_set_weights = true)
    (hr : e.setWeightsResult = ExtResult.ok r)
    (hb2 : e.blockRead2 = ExtResult.ok b2) :
    weightStage m e = Except.ok ({ m with last_updated_block := b2 },
      [Event.blockRead,
        Event.setWeightsCall (buildWeights m.metagraph.uids.length m.miner_uid),
        Event.blockRead]) := by
  unfold weightStage
  rw [hb1]
  dsimp only
  split
  · simp [hr, hb2]
  · rename_i hneg
    exact absurd ⟨hd, hen⟩ hneg

/-- Any tick that ends in the `except Exception` handler (`continue`)
leaves `last_updated_block` as the umbrella block left it; combined with
`weightStage_submit` this pins the value after a submission. -/
theorem tick_submit_block (m : MinerState) (e : TickEnv) (b1 : Nat) (r : Bool)
    (b2 : Nat) (hc : e.cancel = false) (h20 : m.step % 20 = 0)
    (hb1 : e.blockRead1 = ExtResult.ok b1)
    (hd : (b1 : ℤ) - (m.last_updated_block : ℤ) > 100)
    (hen : m.miner_set_weights = true)
    (hr : e.setWeightsResult = ExtResult.ok r)
    (hb2 : e.blockRead2 = ExtResult.ok b2) :
    (tick m e).state.last_updated_block = b2 := by
  have hws := weightStage_submit m e b1 r b2 hb1 hd hen hr hb2
  have hblk := (cadenceBlock_spec m e).2.2.2 h20
  rw [hws] at hblk
  simp only [stateOf] at hblk
  unfold tick
  split
  case isTrue hct => simp [hc] at hct
  case isFalse hct =>
    cases hcb : cadenceBlock m e with
    | error p =>
      obtain ⟨m1, evs⟩ := p
      rw [hcb] at hblk
      simp only [stateOf] at hblk
      dsimp only
      exact hblk
    | ok p =>
      obtain ⟨m1, evs⟩ := p
      rw [hcb] at hblk
      simp only [stateOf] at hblk
      dsimp only
      exact hblk

theorem buildWeights_cons (k j : Nat) :
    buildWeights (k + 1) (j + 1) = 0 :: buildWeights k j := by
  simp [buildWeights, List.replicate_succ]

theorem buildWeights_length (n uid : Nat) : (buildWeights n uid).length = n := by
  simp [buildWeights]

theorem replicate_zero_getD (k j : Nat) :
    (List.replicate k (0 : ℚ)).getD j 0 = 0 := by
  induction k generalizing j with
  | zero => simp
  | succ k ih => cases j <;> simp [List.replicate_succ, ih]

theorem buildWeights_getD_self (n uid : Nat) (h : uid < n) :
    (buildWeights n uid).getD uid 0 = 1 := by
  induction n generalizing uid with
  | zero => omega
  | succ k ih =>
    cases uid with
    | zero => simp [buildWeights, List.replicate_succ]
    | succ j =>
      rw [buildWeights_cons]
      simpa using ih j (by omega)

theorem buildWeights_getD_other (n uid i : Nat) (h : i ≠ uid) :
    (buildWeights n uid).getD i 0 = 0 := by
  induction n generalizing uid i with
  | zero => simp [buildWeights]
  | succ k ih =>
    cases uid with
    | zero =>
      cases i with
      | zero => omega
      | succ j =>
        simp [buildWeights, List.replicate_succ, replicate_zero_getD]
    | succ u =>
      cases i with
      | zero => rw [buildWeights_cons]; simp
      | succ j =>
        rw [buildWeights_cons]
        simpa using ih u j (by omega)

theorem buildWeights_sum (n uid : Nat) (h : uid < n) :
    (buildWeights n uid).sum = 1 := by
  induction n generalizing uid with
  | zero => omega
  | succ k ih =>
    cases uid with
    | zero => simp [buildWeights, List.replicate_succ, List.sum_replicate]
    | succ j =>
      rw [buildWeights_cons]
      simp [ih j (by omega)]

/-- Every tick is one of: the KeyboardInterrupt handler, a caught
exception (`continue`), or a normal completion. -/
theorem tick_cases (m : MinerState) (e : TickEnv) :
    (e.cancel = true ∧ tick m e = shutdownSeq m) ∨
    (e.cancel = false ∧ ∃ p, cadenceBlock m e = Except.error p ∧
      tick m e = ⟨p.1, p.2, Outcome.caught⟩) ∨
    (e.cancel = false ∧ ∃ p, cadenceBlock m e = Except.ok p ∧
      tick m e = ⟨{ p.1 with step := p.1.step + 1 }, p.2 ++ [Event.sleep],
        Outcome.normal⟩) := by
  by_cases hc : e.cancel = true
  · left
    refine ⟨hc, ?_⟩
    unfold tick
    rw [if_pos hc]
  · have hcf : e.cancel = false := by revert hc; cases e.cancel <;> simp
    right
    cases hcb : cadenceBlock m e with
    | error p =>
      left
      refine ⟨hcf, p, rfl, ?_⟩
      unfold tick
      rw [if_neg hc, hcb]
    | ok p =>
      right
      refine ⟨hcf, p, rfl, ?_⟩
      unfold tick
      rw [if_neg hc, hcb]

/-- A `setWeightsCall` in a tick's trace pins down the whole submission
gate and identifies the submitted vector. -/
theorem setWeightsCall_mem_tick (m : MinerState) (e : TickEnv) (w : List ℚ)
    (hmem : Event.setWeightsCall w ∈ (tick m e).events) :
    m.step % 20 = 0 ∧ m.miner_set_weights = true ∧
    w = buildWeights m.metagraph.uids.length m.miner_uid ∧
    ∃ b, e.blockRead1 = ExtResult.ok b ∧
      (b : ℤ) - (m.last_updated_block : ℤ) > 100 := by
  rcases tick_cases m e with ⟨hc, ht⟩ | ⟨hc, p, hcb, ht⟩ | ⟨hc, p, hcb, ht⟩
  · rw [ht] at hmem
    unfold shutdownSeq at hmem
    cases hh : m.wandb_handler <;> rw [hh] at hmem <;> simp at hmem
  · rw [ht] at hmem
    dsimp only at hmem
    have hspec := (cadenceBlock_spec m e).2.2.1 w
    rw [hcb] at hspec
    obtain ⟨h20, hmw⟩ := hspec (by simpa [eventsOf] using hmem)
    have hws := setWeightsCall_mem_weightStage m e w hmw
    exact ⟨h20, hws.1, hws.2.1, hws.2.2⟩
  · rw [ht] at hmem
    dsimp only at hmem
    rw [List.mem_append] at hmem
    rcases hmem with hmem | hmem
    · have hspec := (cadenceBlock_spec m e).2.2.1 w
      rw [hcb] at hspec
      obtain ⟨h20, hmw⟩ := hspec (by simpa [eventsOf] using hmem)
      have hws := setWeightsCall_mem_weightStage m e w hmw
      exact ⟨h20, hws.1, hws.2.1, hws.2.2⟩
    · simp at hmem

/-- A concrete state at step 0 (umbrella cadence due) with the staleness
window wide open and weight submission enabled. -/
def mEx : MinerState := ⟨0, 0, true, 0, gTwo, false, false, some ()⟩

/-- A concrete off-cadence state (step 7). -/
def mOff : MinerState := ⟨7, 0, true, 0, gTwo, false, false, some ()⟩

/-- A concrete state whose telemetry handler was never created. -/
def mNoHandler : MinerState := ⟨0, 0, true, 0, gTwo, false, false, none⟩

/-- Oracle: submission reported failure, fresh post-submission read 250. -/
def envFailEx : TickEnv :=
  ⟨false, ExtResult.ok 200, ExtResult.ok false, ExtResult.ok 250,
    ExtResult.ok false, ExtResult.ok gTwo, ExtResult.ok gTwo⟩

/-- Oracle: submission reported success, fresh post-submission read 250. -/
def envSuccEx : TickEnv :=
  ⟨false, ExtResult.ok 200, ExtResult.ok true, ExtResult.ok 250,
    ExtResult.ok false, ExtResult.ok gTwo, ExtResult.ok gTwo⟩

/-- Oracle: the block-height read raises an exception. -/
def envExnEx : TickEnv :=
  ⟨false, ExtResult.exn, ExtResult.ok true, ExtResult.ok 0,
    ExtResult.ok false, ExtResult.ok gTwo, ExtResult.ok gTwo⟩

/-- Oracle: a cancellation signal arrives this iteration. -/
def envCancelEx : TickEnv :=
  ⟨true, ExtResult.ok 200, ExtResult.ok true, ExtResult.ok 250,
    ExtResult.ok false, ExtResult.ok gTwo, ExtResult.ok gTwo⟩

/-- C1 (counterexample): at a concrete tick in which the block-height read
raises an exception, `step` is NOT incremented by 1 and no 1-time-unit
pause event occurs, refuting the claim that an exception-hit tick still
increments `step` and pauses before the next tick. -/
theorem c1_counterexample :
    (tick mEx envExnEx).state.step ≠ mEx.step + 1 ∧
    Event.sleep ∉ (tick mEx envExnEx).events := by
  decide

/-- C1 (amended): when the tick body raises (the tick ends in the
`except Exception` handler), the loop does not terminate — the run
continues with the remaining ticks — but `step` is left unchanged and the
pause is skipped, so the same tick is re-run rather than the next one. -/
theorem c1_amended_exception_tick (m : MinerState) (e : TickEnv)
    (es : List TickEnv) (h : (tick m e).outcome = Outcome.caught) :
    (tick m e).state.step = m.step ∧
    Event.sleep ∉ (tick m e).events ∧
    (run m (e :: es)).2.2 = (run (tick m e).state es).2.2 := by
  rcases tick_cases m e with ⟨hc, ht⟩ | ⟨hc, p, hcb, ht⟩ | ⟨hc, p, hcb, ht⟩
  · rw [ht] at h
    unfold shutdownSeq at h
    cases hh : m.wandb_handler <;> rw [hh] at h <;> simp at h
  · have hstep := (cadenceBlock_spec m e).1
    have hsleep := (cadenceBlock_spec m e).2.1
    rw [hcb] at hstep hsleep
    refine ⟨?_, ?_, ?_⟩
    · rw [ht]
      exact hstep
    · rw [ht]
      exact hsleep
    · simp [run, ht]
  · rw [ht] at h
    simp at h

theorem c1_amended_exception_tick_witness :
    (tick mEx envExnEx).state.step = mEx.step ∧
    Event.sleep ∉ (tick mEx envExnEx).events ∧
    (run mEx (envExnEx :: [])).2.2 = (run (tick mEx envExnEx).state []).2.2 :=
  c1_amended_exception_tick mEx envExnEx [] (by decide)

/-- C2 (counterexample): a concrete tick in which the ledger reports
failure (`set_weights` returns False, no exception) still changes
`last_updated_block`, refuting the claim that it is left unchanged: line
88 of the source runs whether or not the result was a success. -/
theorem c2_counterexample :
    envFailEx.setWeightsResult = ExtResult.ok false ∧
    (tick mEx envFailEx).state.last_updated_block ≠ mEx.last_updated_block := by
  decide

/-- C2 (amended): when the ledger reports failure (submit returns False,
no exception), the task still sets `last_updated_block` — to the result of
a fresh block read performed after the submission. -/
theorem c2_amended_failure_updates_block (m : MinerState) (e : TickEnv)
    (b1 b2 : Nat) (hc : e.cancel = false) (h20 : m.step % 20 = 0)
    (hb1 : e.blockRead1 = ExtResult.ok b1)
    (hd : (b1 : ℤ) - (m.last_updated_block : ℤ) > 100)
    (hen : m.miner_set_weights = true)
    (hr : e.setWeightsResult = ExtResult.ok false)
    (hb2 : e.blockRead2 = ExtResult.ok b2) :
    (tick m e).state.last_updated_block = b2 :=
  tick_submit_block m e b1 false b2 hc h20 hb1 hd hen hr hb2

theorem c2_amended_failure_updates_block_witness :
    (tick mEx envFailEx).state.last_updated_block = 250 :=
  c2_amended_failure_updates_block mEx envFailEx 200 250 rfl rfl rfl
    (by decide) rfl rfl rfl

/-- C3 (counterexample): a concrete successful submission in which the
block height observed at submission time (the read on line 59) is 200 but
the fresh read on line 88 returns 250: `last_updated_block` ends at 250,
refuting the claim that it equals the height read before submitting. -/
theorem c3_counterexample :
    envSuccEx.blockRead1 = ExtResult.ok 200 ∧
    envSuccEx.setWeightsResult = ExtResult.ok true ∧
    (tick mEx envSuccEx).state.last_updated_block ≠ 200 := by
  decide

/-- C3 (amended): after a submission the ledger reports successful,
`last_updated_block` equals the result of a second block read performed
after the submission (line 88), which can differ from the height read
before submitting. -/
theorem c3_amended_success_updates_block (m : MinerState) (e : TickEnv)
    (b1 b2 : Nat) (hc : e.cancel = false) (h20 : m.step % 20 = 0)
    (hb1 : e.blockRead1 = ExtResult.ok b1)
    (hd : (b1 : ℤ) - (m.last_updated_block : ℤ) > 100)
    (hen : m.miner_set_weights = true)
    (hr : e.setWeightsResult = ExtResult.ok true)
    (hb2 : e.blockRead2 = ExtResult.ok b2) :
    (tick m e).state.last_updated_block = b2 :=
  tick_submit_block m e b1 true b2 hc h20 hb1 hd hen hr hb2

theorem c3_amended_success_updates_block_witness :
    (tick mEx envSuccEx).state.last_updated_block = 250 :=
  c3_amended_success_updates_block mEx envSuccEx 200 250 rfl rfl rfl
    (by decide) rfl rfl rfl

/-- C4: a weight submission occurs in a tick only when the umbrella
cadence is due (`step % 20 == 0`), weight submission is enabled, and the
block height read this tick exceeds `last_updated_block` by strictly more
than 100 — so a delta of exactly 100 never triggers a submission. -/
theorem c4_submission_guard (m : MinerState) (e : TickEnv) (w : List ℚ)
    (hmem : Event.setWeightsCall w ∈ (tick m e).events) :
    m.step % 20 = 0 ∧ m.miner_set_weights = true ∧
    ∃ b, e.blockRead1 = ExtResult.ok b ∧
      (b : ℤ) - (m.last_updated_block : ℤ) > 100 := by
  obtain ⟨h20, hen, -, hb⟩ := setWeightsCall_mem_tick m e w hmem
  exact ⟨h20, hen, hb⟩

theorem c4_submission_guard_witness :
    mEx.step % 20 = 0 ∧ mEx.miner_set_weights = true ∧
    ∃ b, envSuccEx.blockRead1 = ExtResult.ok b ∧
      (b : ℤ) - (mEx.last_updated_block : ℤ) > 100 :=
  c4_submission_guard mEx envSuccEx (buildWeights 2 0) (by decide)

/-- C5: every weight vector a tick submits has length equal to the number
of participants in the cached snapshot, entry 1 at `miner_uid`, entry 0
everywhere else, and sum exactly 1. -/
theorem c5_weight_vector_invariant (m : MinerState) (e : TickEnv)
    (w : List ℚ) (hmem : Event.setWeightsCall w ∈ (tick m e).events)
    (huid : m.miner_uid < m.metagraph.uids.length) :
    w.length = m.metagraph.uids.length ∧
    w.getD m.miner_uid 0 = 1 ∧
    (∀ i, i ≠ m.miner_uid → w.getD i 0 = 0) ∧
    w.sum = 1 := by
  obtain ⟨-, -, hw, -⟩ := setWeightsCall_mem_tick m e w hmem
  subst hw
  exact ⟨buildWeights_length _ _, buildWeights_getD_self _ _ huid,
    fun i hi => buildWeights_getD_other _ _ i hi, buildWeights_sum _ _ huid⟩

theorem c5_weight_vector_invariant_witness :
    (buildWeights 2 0).length = mEx.metagraph.uids.length ∧
    (buildWeights 2 0).getD mEx.miner_uid 0 = 1 ∧
    (∀ i, i ≠ mEx.miner_uid → (buildWeights 2 0).getD i 0 = 0) ∧
    (buildWeights 2 0).sum = 1 :=
  c5_weight_vector_invariant mEx envSuccEx (buildWeights 2 0) (by decide)
    (by decide)

/-- C6: on a tick whose `step` is not a multiple of 20 (and with no
cancellation signal), no cadence-gated sub-task runs — the tick emits only
the sleep — and `step` is incremented by exactly 1. -/
theorem c6_off_cadence_tick (m : MinerState) (e : TickEnv)
    (hc : e.cancel = false) (h20 : m.step % 20 ≠ 0) :
    tick m e = ⟨{ m with step := m.step + 1 }, [Event.sleep],
      Outcome.normal⟩ := by
  have hcb : cadenceBlock m e = Except.ok (m, []) := by
    unfold cadenceBlock
    rw [if_neg (by simpa using h20)]
  unfold tick
  rw [if_neg (by simp [hc]), hcb]
  rfl

theorem c6_off_cadence_tick_witness :
    tick mOff envSuccEx =
      ⟨{ mOff with step := mOff.step + 1 }, [Event.sleep], Outcome.normal⟩ :=
  c6_off_cadence_tick mOff envSuccEx rfl (by decide)

/-- C7: a cancellation signal arriving at a tick boundary ends the run in
the `Stopped` outcome after exactly one stop call on the serving handle
and exactly one telemetry flush, and none of the remaining ticks run
(the event trace is exactly `[axonStop, wandbFinish]`). -/
theorem c7_cancellation_shutdown (m : MinerState) (u : Unit) (e : TickEnv)
    (es : List TickEnv) (hc : e.cancel = true)
    (hw : m.wandb_handler = some u) :
    run m (e :: es) =
      (m, [Event.axonStop, Event.wandbFinish], Outcome.stopped) := by
  have ht : tick m e = ⟨m, [Event.axonStop, Event.wandbFinish],
      Outcome.stopped⟩ := by
    unfold tick
    rw [if_pos hc]
    unfold shutdownSeq
    rw [hw]
  simp [run, ht]

theorem c7_cancellation_shutdown_witness :
    run mEx (envCancelEx :: []) =
      (mEx, [Event.axonStop, Event.wandbFinish], Outcome.stopped) :=
  c7_cancellation_shutdown mEx () envCancelEx [] rfl rfl

/-- C8: the lightweight snapshot refresh (line 101) is idempotent — ran
twice against the same ledger answer `g` it yields the same state, and in
particular the same `network_snapshot`, as running it once. -/
theorem c8_lightweight_refresh_idempotent (m : MinerState) (g : Metagraph) :
    lightweightRefresh (lightweightRefresh m g) g = lightweightRefresh m g :=
  rfl

/-- C9: because 20 divides 300 and 600, nesting the 300- and 600-step
checks inside the 20-step umbrella branch is equivalent to evaluating them
independently: the blacklist refresh fires exactly when `step % 300 == 0`
and the full resync exactly when `step % 600 == 0`; no firing is lost. -/
theorem c9_nested_cadence_equivalence (step : Nat) :
    blacklistDueNested step = blacklistDueIndependent step ∧
    resyncDueNested step = resyncDueIndependent step := by
  constructor
  · unfold blacklistDueNested blacklistDueIndependent
    rw [Bool.eq_iff_iff]
    simp only [Bool.and_eq_true, beq_iff_eq]
    constructor
    · rintro ⟨-, h⟩
      exact h
    · intro h
      exact ⟨by omega, h⟩
  · unfold resyncDueNested resyncDueIndependent
    rw [Bool.eq_iff_iff]
    simp only [Bool.and_eq_true, beq_iff_eq]
    constructor
    · rintro ⟨-, h⟩
      exact h
    · intro h
      exact ⟨by omega, h⟩

/-- C10: the shutdown path invokes the telemetry handler's finish
operation unconditionally, even with telemetry disabled
(`wandb_enabled = false`): when the handler exists the shutdown completes
cleanly with the finish event; when it does not, the dereference raises
and the error branch is reached (the exception escapes the loop). -/
theorem c10_shutdown_dereferences_handler (m : MinerState) (e : TickEnv)
    (hc : e.cancel = true) (_hen : m.wandb_enabled = false) :
    tick m e = shutdownSeq m ∧
    (∀ u : Unit, m.wandb_handler = some u →
      tick m e = ⟨m, [Event.axonStop, Event.wandbFinish], Outcome.stopped⟩) ∧
    (m.wandb_handler = none →
      tick m e = ⟨m, [Event.axonStop], Outcome.crashed⟩) := by
  have h1 : tick m e = shutdownSeq m := by
    unfold tick
    rw [if_pos hc]
  refine ⟨h1, ?_, ?_⟩
  · intro u hu
    rw [h1]
    unfold shutdownSeq
    rw [hu]
  · intro hu
    rw [h1]
    unfold shutdownSeq
    rw [hu]

theorem c10_shutdown_dereferences_handler_witness :
    tick mNoHandler envCancelEx =
      ⟨mNoHandler, [Event.axonStop], Outcome.crashed⟩ :=
  (c10_shutdown_dereferences_handler mNoHandler envCancelEx rfl rfl).2.2 rfl

end MinerLoop
